import Mathlib

/-!
Verification of the thermistor-calibration data-acquisition core.

Shallow embedding of `src/src_python/main.py` of
`Dennis-van-Gils/project-thermistor-calibration`, centred on the per-tick
postprocessor `mux_process` (lines 485-559), together with theorems settling
the specification claims about it.

Modelling conventions:
* IEEE-754 doubles are modelled as `Val`: either `NaN` or an exact rational.
  Python/numpy comparison `nan > x` is `False`, which `Val.gtThreshold`
  reproduces.
* Each `file_logger.write("...")` call is modelled as appending `Chunk`s that
  keep the printf structure explicit (`Chunk.f p v` for `"%.pf" % v`,
  `Chunk.e p v` for `"%.pe" % v`, `Chunk.lit s` for literal text).
* A Python `IndexError` (out-of-range list access) makes the embedded
  function return `none`.
* `window.CHs_mux` is a list of exactly `N_channels` chart buffers built at
  startup; it is modelled as the total family `ℕ → Buffer`.
-/

namespace ThermistorCalib

/-- An instrument value: an IEEE double modelled as `NaN` or an exact
rational. -/
inductive Val where
  | nan : Val
  | num : ℚ → Val
deriving DecidableEq

/-- The overflow threshold `9.8e37` appearing in `mux_process` (line 496),
written out as an exact integer numeral (98 followed by 36 zeros). -/
def overflowThreshold : ℚ := 98000000000000000000000000000000000000

/-- Python float comparison `v > 9.8e37`; `NaN` compares `False`. -/
def Val.gtThreshold : Val → Bool
  | .nan => false
  | .num q => decide (overflowThreshold < q)

/-- Effect of line 496-497 on one cell:
`if readings[i] > 9.8e37: readings[i] = np.nan`. -/
def normalizeVal (v : Val) : Val :=
  if v.gtThreshold then .nan else v

/-- Effect of the normalisation loop (lines 495-497) on the shared readings
list: the first `N` entries are normalised in place, the rest untouched.
(The loop itself raises `IndexError` when the list is shorter than `N`;
callers guard on the length.) -/
def normalizeScan (N : ℕ) (rs : List Val) : List Val :=
  (rs.take N).map normalizeVal ++ rs.drop N

/-- A fragment of text written by `file_logger.write`, keeping the printf
structure explicit: `f p v` is `"%.pf" % v` (fixed notation with `p`
decimals), `e p v` is `"%.pe" % v` (exponential notation with `p` digits
after the decimal point), `lit s` is literal text. -/
inductive Chunk where
  | lit : String → Chunk
  | f : ℕ → Val → Chunk
  | e : ℕ → Val → Chunk
deriving DecidableEq

/-- A timestamped sample held in a chart history buffer. -/
abbrev Sample := Int × Val

/-- A chart history buffer (`HistoryChartCurve` contents). -/
abbrev Buffer := List Sample

/-- The mutable program state touched by `mux_process`: the mux device state,
the bath and PT104 states, the chart history buffers and the file logger. -/
structure SysState where
  /-- `mux.state.readings` -/
  mux_readings : List Val
  /-- `bath.state.P1_temp` -/
  P1_temp : Val
  /-- `bath.state.P2_temp` -/
  P2_temp : Val
  /-- `pt104.state.ch1_T` -/
  ch1_T : Val
  /-- `window.CHs_mux`, the per-channel chart buffers, as an indexed family -/
  CHs_mux : ℕ → Buffer
  /-- `window.CH_P1_temp` -/
  CH_P1 : Buffer
  /-- `window.CH_P2_temp` -/
  CH_P2 : Buffer
  /-- `window.CH_PT104_ch1_T` -/
  CH_PT104 : Buffer
  /-- `file_logger.starting` -/
  starting : Bool
  /-- `file_logger.stopping` -/
  stopping : Bool
  /-- `file_logger.is_recording` -/
  is_recording : Bool
  /-- `file_logger.start_time` -/
  start_time : Int
  /-- the content of the currently open (or last closed) log file -/
  log_file : List Chunk

/-- The per-tick inputs of one `mux_process` call that come from outside the
modelled state: the wall-clock epoch time, the scanning flag of the DAQ
worker, the fresh bath value fetched by `bath.query_P1_temp()`, and whether
`file_logger.create_log` succeeds when attempted. -/
structure TickInput where
  epoch_time : Int
  is_MUX_scanning : Bool
  fresh_P1 : Val
  create_ok : Bool

/-- The observable operations `mux_process` performs, in order: buffer
appends and recording-session (file logger) operations. -/
inductive Op where
  | appendMuxCH : ℕ → Op
  | appendP1 : Op
  | appendP2 : Op
  | appendPT104 : Op
  | createLog : Op
  | writeHeader : Op
  | closeLog : Op
  | writeDataRow : Op
deriving DecidableEq

/-- Is the operation a history-buffer append? -/
def Op.isAppend : Op → Bool
  | .appendMuxCH _ => true
  | .appendP1 => true
  | .appendP2 => true
  | .appendPT104 => true
  | _ => false

/-- Is the operation a recording-session (file logger) operation? -/
def Op.isSession : Op → Bool
  | .createLog => true
  | .writeHeader => true
  | .closeLog => true
  | .writeDataRow => true
  | _ => false

/-- The fixed sequence of buffer appends every tick performs
(lines 503-512): one append per mux channel, then P1, P2, PT104. -/
def appendOps (N : ℕ) : List Op :=
  (List.range N).map Op.appendMuxCH ++ [Op.appendP1, Op.appendP2, Op.appendPT104]

/-- Lines 492-501: while scanning, normalise the shared readings in place
(aliasing: `readings = mux.state.readings`); otherwise replace
`mux.state.readings` with a fresh list of `N` NaNs. Returns the local
`readings` together with the updated state; `none` models the `IndexError`
raised by `readings[i]` when the list is shorter than `N`. -/
def scanPhase (N : ℕ) (scanning : Bool) (s : SysState) :
    Option (List Val × SysState) :=
  if scanning then
    if N ≤ s.mux_readings.length then
      let rs := normalizeScan N s.mux_readings
      some (rs, { s with mux_readings := rs })
    else none
  else
    let rs := List.replicate N Val.nan
    some (rs, { s with mux_readings := rs })

/-- Lines 503-505: append `(epoch_time, readings[i])` to each of the `N`
mux chart buffers. -/
def chartPhase (N : ℕ) (t : Int) (rs : List Val) (s : SysState) : SysState :=
  { s with CHs_mux := fun i =>
      if i < N then s.CHs_mux i ++ [(t, rs.getD i Val.nan)] else s.CHs_mux i }

/-- Lines 507-512: `bath.query_P1_temp()` refreshes `bath.state.P1_temp`,
then the three auxiliary samples are appended, all stamped with the current
tick's `epoch_time` (`P2` is not re-queried; `pt104.state.ch1_T` is whatever
the PT104 worker last stored). -/
def auxPhase (t : Int) (freshP1 : Val) (s : SysState) : SysState :=
  { s with
    P1_temp := freshP1,
    CH_P1 := s.CH_P1 ++ [(t, freshP1)],
    CH_P2 := s.CH_P2 ++ [(t, s.P2_temp)],
    CH_PT104 := s.CH_PT104 ++ [(t, s.ch1_T)] }

/-- The header row written on successful log creation (lines 530-538):
`time[s]`, `P1_temp[degC]`, `P2_temp[degC]`, `PT104_Ch1[degC]`, then one
`CH<label>` column per entry of `mux.state.all_scan_list_channels`, in
order, tab-separated, ending in a newline. -/
def headerChunks (channels : List String) : List Chunk :=
  [Chunk.lit "time[s]\t", Chunk.lit "P1_temp[degC]\t",
   Chunk.lit "P2_temp[degC]\t", Chunk.lit "PT104_Ch1[degC]\t"]
  ++ (channels.take (channels.length - 1)).map
      (fun ch => Chunk.lit ("CH" ++ ch ++ "\t"))
  ++ [Chunk.lit ("CH" ++ channels.getD (channels.length - 1) "" ++ "\n")]

/-- Lines 518-538: if `file_logger.starting`, attempt `create_log` and on
success write the header into the fresh (mode `"w"`, hence empty) file.
`create_log` semantics (clear `starting`, set `is_recording`, record the
start time) are those of the `FileLogger` session. Modelled from the spec:
the `FileLogger` class itself is an external package not under `src/`;
§4.3 of the spec (RecordingSession) describes `start(path)` as opening the
file, recording a start timestamp, and enabling row writing, and
`RecordingStartError` as rejected with no further state change.
`none` models the `IndexError` raised by `all_scan_list_channels[-1]` when
the channel list is empty. -/
def startPhase (channels : List String) (ok : Bool) (t : Int) (s : SysState) :
    Option (SysState × List Op) :=
  if s.starting then
    if ok then
      if channels.isEmpty then none
      else
        some ({ s with starting := false, is_recording := true,
                       start_time := t, log_file := headerChunks channels },
              [Op.createLog, Op.writeHeader])
    else some ({ s with starting := false }, [Op.createLog])
  else some (s, [])

/-- Lines 540-544: if `file_logger.stopping`, `close_log` ends the
recording session. Modelled from the spec: `FileLogger.close_log` is
external; §4.3 describes `stop()` as closing the file and returning to
Idle, idempotently. -/
def stopPhase (s : SysState) : SysState × List Op :=
  if s.stopping then
    ({ s with stopping := false, is_recording := false }, [Op.closeLog])
  else (s, [])

/-- One channel cell of a data row (lines 554-558): a tab separator followed
by the value in `"%.5e"` exponential notation. -/
def cellChunks (v : Val) : List Chunk :=
  [Chunk.lit "\t", Chunk.e 5 v]

/-- One data row (lines 550-559): elapsed seconds in `"%.3f"`, the two bath
temperatures in `"%.2f"`, the PT104 value in `"%.3f"`, then per channel
`i < N` a tab and `"%.5e"` of `readings[i]` — with `NaN` substituted when
the readings list is shorter (`len(mux.state.readings) <= i`) — and a
single terminating newline. -/
def dataRowChunks (N : ℕ) (elapsed : ℚ) (p1 p2 ch1 : Val) (rs : List Val) :
    List Chunk :=
  [Chunk.f 3 (Val.num elapsed), Chunk.lit "\t",
   Chunk.f 2 p1, Chunk.lit "\t",
   Chunk.f 2 p2, Chunk.lit "\t",
   Chunk.f 3 ch1]
  ++ (List.range N).flatMap (fun i => cellChunks (rs.getD i Val.nan))
  ++ [Chunk.lit "\n"]

/-- Lines 546-559: while `is_recording`, append exactly one data row built
from the elapsed time `(epoch_time - file_logger.start_time) / 1e3`
(the exact rational `Rat.divInt (t - start_time) 1000`), the current bath
and PT104 state, and the current `mux.state.readings`. -/
def recordPhase (N : ℕ) (t : Int) (s : SysState) : SysState × List Op :=
  if s.is_recording then
    ({ s with log_file := s.log_file ++
        (dataRowChunks N (Rat.divInt (t - s.start_time) 1000)
          s.P1_temp s.P2_temp s.ch1_T s.mux_readings) },
     [Op.writeDataRow])
  else (s, [])

/-- Shallow embedding of `mux_process` (main.py lines 485-559), the per-tick
postprocessor of the primary DAQ thread. Returns the successor state
together with the ordered trace of buffer-append and file-session
operations performed; `none` models a raised `IndexError`. -/
def mux_process (channels : List String) (inp : TickInput) (s : SysState) :
    Option (SysState × List Op) :=
  match scanPhase channels.length inp.is_MUX_scanning s with
  | none => none
  | some (rs, s1) =>
    match startPhase channels inp.create_ok inp.epoch_time
        (auxPhase inp.epoch_time inp.fresh_P1
          (chartPhase channels.length inp.epoch_time rs s1)) with
    | none => none
    | some (s5, ops5) =>
      some ((recordPhase channels.length inp.epoch_time (stopPhase s5).1).1,
            appendOps channels.length ++ ops5 ++ (stopPhase s5).2 ++
              (recordPhase channels.length inp.epoch_time (stopPhase s5).1).2)

/-- The local `readings` list produced by lines 492-501 on a successful
tick, as a function of the scanning flag and the previous shared readings:
the (in-place) normalisation while scanning, a fresh all-NaN list
otherwise. -/
def scanResult (N : ℕ) (scanning : Bool) (rs0 : List Val) : List Val :=
  if scanning then normalizeScan N rs0 else List.replicate N Val.nan

/-- Is the chunk a `"%.Ne"`-formatted (exponential) field? -/
def Chunk.isExp : Chunk → Bool
  | .e _ _ => true
  | _ => false

/-- Modelled from the spec: one tick of the primary AcquisitionScheduler.
The DAQ worker of the Keysight driver (an external package) stores the
instrument's scan result into `mux.state.readings` and then invokes
`mux_process` as the postprocess callback (spec §2: Scheduler → raw
reading → DataRouter). -/
def daqTick (channels : List String) (inp : TickInput) (scan : List Val)
    (s : SysState) : Option (SysState × List Op) :=
  mux_process channels inp { s with mux_readings := scan }

/-- A run of consecutive primary ticks, each carrying its tick input and the
scan the instrument returned for it; stops with `none` if any tick raises. -/
def runDAQ (channels : List String) :
    List (TickInput × List Val) → SysState → Option SysState
  | [], s => some s
  | p :: rest, s =>
    match daqTick channels p.1 p.2 s with
    | none => none
    | some (s1, _) => runDAQ channels rest s1

/-- One event in an interleaved acquisition trace: an auxiliary device's
worker stores a fresh sample into its shared state field at its own sample
time (as the PT104 worker stores `pt104.state.ch1_T`), or the primary tick
fires and `mux_process` reads the currently held value (lines 511-512). -/
inductive AuxEv where
  | sample : Int → Val → AuxEv
  | tick : Int → AuxEv
deriving DecidableEq

/-- The wall-clock time of an event. -/
def AuxEv.time : AuxEv → Int
  | .sample ts _ => ts
  | .tick ts => ts

/-- Sample-and-hold merging over an interleaved trace: an auxiliary sample
overwrites the held shared value; a primary tick emits a merged-row field
`(tick time, held value)`, exactly as `mux_process` stamps the current
shared auxiliary value with the tick's `epoch_time`. -/
def runMerge (held : Val) : List AuxEv → List (Int × Val)
  | [] => []
  | .sample _ v :: es => runMerge v es
  | .tick ts :: es => (ts, held) :: runMerge held es

/-- The auxiliary value held in shared state after a prefix of events. -/
def heldAfter (held : Val) : List AuxEv → Val
  | [] => held
  | .sample _ v :: es => heldAfter v es
  | .tick _ :: es => heldAfter held es

/-- Number of primary ticks in a trace. -/
def countTicks (es : List AuxEv) : ℕ :=
  es.countP fun e => match e with | .tick _ => true | _ => false

/-! ## Concrete fixtures used by the witnesses and counterexamples -/

/-- A concrete two-channel scan list. -/
def wChannels : List String := ["101", "102"]

/-- A concrete state: recording in progress, two stored readings of which
the second exceeds the overflow threshold. -/
def wState : SysState :=
  { mux_readings := [Val.num 5, Val.num 100000000000000000000000000000000000000],
    P1_temp := Val.num 20, P2_temp := Val.num 21, ch1_T := Val.num 22,
    CHs_mux := fun _ => [], CH_P1 := [], CH_P2 := [], CH_PT104 := [],
    starting := false, stopping := false, is_recording := true,
    start_time := 1000, log_file := [] }

/-- A concrete tick input: scanning, epoch 2000 ms, fresh P1 value 23. -/
def wTick : TickInput :=
  { epoch_time := 2000, is_MUX_scanning := true,
    fresh_P1 := Val.num 23, create_ok := false }

/-- `wState` with recording not yet started and the start button pressed. -/
def wStateStart : SysState :=
  { wState with starting := true, is_recording := false }

/-- `wTick` with a successful `create_log`. -/
def wTickStart : TickInput := { wTick with create_ok := true }

/-- `wTick` with the multiplexer not scanning. -/
def wTickNoScan : TickInput := { wTick with is_MUX_scanning := false }

/-- A state holding a large *negative* reading, beyond the overflow
threshold in magnitude. -/
def wStateNeg : SysState :=
  { wState with
    mux_readings := [Val.num (-100000000000000000000000000000000000000)] }

/-- A one-channel scan list for the negative-reading counterexample. -/
def wChannelsOne : List String := ["101"]

/-- A recording state whose readings list is shorter than the channel
count, exercising the missing-cell guard of lines 554-558. -/
def wStateShort : SysState := { wState with mux_readings := [Val.num 7] }

/-! ## Helper lemmas about the embedded definitions -/

theorem normalizeScan_zero (rs : List Val) : normalizeScan 0 rs = rs := by
  simp [normalizeScan]

theorem normalizeScan_nil (N : ℕ) : normalizeScan N [] = [] := by
  simp [normalizeScan]

theorem normalizeScan_cons (N : ℕ) (a : Val) (rs : List Val) :
    normalizeScan (N + 1) (a :: rs) = normalizeVal a :: normalizeScan N rs := by
  simp [normalizeScan]

theorem normalizeScan_length (N : ℕ) (rs : List Val) :
    (normalizeScan N rs).length = rs.length := by
  simp only [normalizeScan, List.length_append, List.length_map,
    List.length_take, List.length_drop]
  omega

theorem normalizeScan_getD_lt {N i : ℕ} (rs : List Val) (d : Val)
    (hi : i < N) (hN : N ≤ rs.length) :
    (normalizeScan N rs).getD i d = normalizeVal (rs.getD i d) := by
  induction rs generalizing N i with
  | nil => simp at hN; omega
  | cons a rs ih =>
    cases N with
    | zero => omega
    | succ N =>
      rw [normalizeScan_cons]
      cases i with
      | zero => simp
      | succ i =>
        simp only [List.getD_cons_succ]
        exact ih (by omega) (by simpa using hN)

theorem getD_replicate_of_lt {n i : ℕ} {v d : Val} (hi : i < n) :
    (List.replicate n v).getD i d = v := by
  induction n generalizing i with
  | zero => omega
  | succ n ih =>
    cases i with
    | zero => simp [List.replicate]
    | succ i => simpa [List.replicate] using ih (by omega)

theorem appendOps_isAppend (N : ℕ) : ∀ op ∈ appendOps N, op.isAppend = true := by
  intro op hop
  simp only [appendOps, List.mem_append, List.mem_map, List.mem_range,
    List.mem_cons, List.not_mem_nil, or_false] at hop
  rcases hop with ⟨i, _, rfl⟩ | rfl | rfl | rfl <;> rfl

/-- Inversion of a successful `scanPhase` while the mux is scanning. -/
theorem scanPhase_scanning {N : ℕ} {s : SysState} {rs : List Val} {s1 : SysState}
    (h : scanPhase N true s = some (rs, s1)) :
    N ≤ s.mux_readings.length ∧ rs = normalizeScan N s.mux_readings ∧
      s1 = { s with mux_readings := normalizeScan N s.mux_readings } := by
  unfold scanPhase at h
  simp only [if_true] at h
  split at h
  · simp only [Option.some.injEq, Prod.mk.injEq] at h
    refine ⟨by assumption, h.1.symm, ?_⟩
    rw [← h.2, h.1]
  · exact absurd h (by simp)

/-- `scanPhase` while the mux is not scanning. -/
theorem scanPhase_not_scanning (N : ℕ) (s : SysState) :
    scanPhase N false s =
      some (List.replicate N Val.nan,
            { s with mux_readings := List.replicate N Val.nan }) := rfl

/-- A successful `scanPhase` only changes `mux_readings`, and stores there
exactly the list it returns. -/
theorem scanPhase_some {N : ℕ} {b : Bool} {s : SysState} {rs : List Val}
    {s1 : SysState} (h : scanPhase N b s = some (rs, s1)) :
    s1 = { s with mux_readings := rs } := by
  unfold scanPhase at h
  cases b with
  | false =>
    simp only [Bool.false_eq_true, if_false, Option.some.injEq,
      Prod.mk.injEq] at h
    rw [← h.2, h.1]
  | true =>
    simp only [if_true] at h
    split at h
    · simp only [Option.some.injEq, Prod.mk.injEq] at h
      rw [← h.2, h.1]
    · exact absurd h (by simp)

/-- Inversion of a successful `startPhase`. -/
theorem startPhase_some {channels : List String} {ok : Bool} {t : Int}
    {s s5 : SysState} {ops5 : List Op}
    (h : startPhase channels ok t s = some (s5, ops5)) :
    (s.starting = true ∧ ok = true ∧ channels ≠ [] ∧
      s5 = { s with starting := false, is_recording := true, start_time := t,
                    log_file := headerChunks channels } ∧
      ops5 = [Op.createLog, Op.writeHeader])
    ∨ (s.starting = true ∧ ok = false ∧
      s5 = { s with starting := false } ∧ ops5 = [Op.createLog])
    ∨ (s.starting = false ∧ s5 = s ∧ ops5 = []) := by
  unfold startPhase at h
  split at h
  · rename_i hstart
    split at h
    · rename_i hok
      split at h
      · exact absurd h (by simp)
      · rename_i hne
        left
        simp only [Option.some.injEq, Prod.mk.injEq] at h
        refine ⟨hstart, hok, ?_, h.1.symm, h.2.symm⟩
        intro hc
        exact hne (by simp [hc])
    · rename_i hok
      right; left
      simp only [Option.some.injEq, Prod.mk.injEq] at h
      exact ⟨hstart, by simpa using hok, h.1.symm, h.2.symm⟩
  · rename_i hstart
    right; right
    simp only [Option.some.injEq, Prod.mk.injEq] at h
    exact ⟨by simpa using hstart, h.1.symm, h.2.symm⟩

@[simp] theorem stopPhase_mux_readings (s : SysState) :
    (stopPhase s).1.mux_readings = s.mux_readings := by
  unfold stopPhase; split <;> rfl

@[simp] theorem stopPhase_P1_temp (s : SysState) :
    (stopPhase s).1.P1_temp = s.P1_temp := by
  unfold stopPhase; split <;> rfl

@[simp] theorem stopPhase_P2_temp (s : SysState) :
    (stopPhase s).1.P2_temp = s.P2_temp := by
  unfold stopPhase; split <;> rfl

@[simp] theorem stopPhase_ch1_T (s : SysState) :
    (stopPhase s).1.ch1_T = s.ch1_T := by
  unfold stopPhase; split <;> rfl

@[simp] theorem stopPhase_CHs_mux (s : SysState) :
    (stopPhase s).1.CHs_mux = s.CHs_mux := by
  unfold stopPhase; split <;> rfl

@[simp] theorem stopPhase_CH_P1 (s : SysState) :
    (stopPhase s).1.CH_P1 = s.CH_P1 := by
  unfold stopPhase; split <;> rfl

@[simp] theorem stopPhase_CH_P2 (s : SysState) :
    (stopPhase s).1.CH_P2 = s.CH_P2 := by
  unfold stopPhase; split <;> rfl

@[simp] theorem stopPhase_CH_PT104 (s : SysState) :
    (stopPhase s).1.CH_PT104 = s.CH_PT104 := by
  unfold stopPhase; split <;> rfl

@[simp] theorem stopPhase_starting (s : SysState) :
    (stopPhase s).1.starting = s.starting := by
  unfold stopPhase; split <;> rfl

@[simp] theorem stopPhase_start_time (s : SysState) :
    (stopPhase s).1.start_time = s.start_time := by
  unfold stopPhase; split <;> rfl

@[simp] theorem stopPhase_log_file (s : SysState) :
    (stopPhase s).1.log_file = s.log_file := by
  unfold stopPhase; split <;> rfl

@[simp] theorem recordPhase_mux_readings (N : ℕ) (t : Int) (s : SysState) :
    (recordPhase N t s).1.mux_readings = s.mux_readings := by
  unfold recordPhase; split <;> rfl

@[simp] theorem recordPhase_P1_temp (N : ℕ) (t : Int) (s : SysState) :
    (recordPhase N t s).1.P1_temp = s.P1_temp := by
  unfold recordPhase; split <;> rfl

@[simp] theorem recordPhase_P2_temp (N : ℕ) (t : Int) (s : SysState) :
    (recordPhase N t s).1.P2_temp = s.P2_temp := by
  unfold recordPhase; split <;> rfl

@[simp] theorem recordPhase_ch1_T (N : ℕ) (t : Int) (s : SysState) :
    (recordPhase N t s).1.ch1_T = s.ch1_T := by
  unfold recordPhase; split <;> rfl

@[simp] theorem recordPhase_CHs_mux (N : ℕ) (t : Int) (s : SysState) :
    (recordPhase N t s).1.CHs_mux = s.CHs_mux := by
  unfold recordPhase; split <;> rfl

@[simp] theorem recordPhase_CH_P1 (N : ℕ) (t : Int) (s : SysState) :
    (recordPhase N t s).1.CH_P1 = s.CH_P1 := by
  unfold recordPhase; split <;> rfl

@[simp] theorem recordPhase_CH_P2 (N : ℕ) (t : Int) (s : SysState) :
    (recordPhase N t s).1.CH_P2 = s.CH_P2 := by
  unfold recordPhase; split <;> rfl

@[simp] theorem recordPhase_CH_PT104 (N : ℕ) (t : Int) (s : SysState) :
    (recordPhase N t s).1.CH_PT104 = s.CH_PT104 := by
  unfold recordPhase; split <;> rfl

@[simp] theorem recordPhase_starting (N : ℕ) (t : Int) (s : SysState) :
    (recordPhase N t s).1.starting = s.starting := by
  unfold recordPhase; split <;> rfl

@[simp] theorem recordPhase_stopping (N : ℕ) (t : Int) (s : SysState) :
    (recordPhase N t s).1.stopping = s.stopping := by
  unfold recordPhase; split <;> rfl

@[simp] theorem recordPhase_is_recording (N : ℕ) (t : Int) (s : SysState) :
    (recordPhase N t s).1.is_recording = s.is_recording := by
  unfold recordPhase; split <;> rfl

@[simp] theorem recordPhase_start_time (N : ℕ) (t : Int) (s : SysState) :
    (recordPhase N t s).1.start_time = s.start_time := by
  unfold recordPhase; split <;> rfl

theorem stopPhase_of_not_stopping {s : SysState} (h : s.stopping = false) :
    stopPhase s = (s, []) := by
  unfold stopPhase; rw [if_neg (by simp [h])]

theorem stopPhase_of_stopping {s : SysState} (h : s.stopping = true) :
    stopPhase s =
      ({ s with stopping := false, is_recording := false }, [Op.closeLog]) := by
  unfold stopPhase; rw [if_pos h]

/-- While recording, `recordPhase` appends exactly one data row. -/
theorem recordPhase_recording {s : SysState} (N : ℕ) (t : Int)
    (h : s.is_recording = true) :
    recordPhase N t s =
      ({ s with log_file := s.log_file ++
          (dataRowChunks N (Rat.divInt (t - s.start_time) 1000)
            s.P1_temp s.P2_temp s.ch1_T s.mux_readings) },
       [Op.writeDataRow]) := by
  unfold recordPhase
  rw [if_pos h]

/-- Not recording: `recordPhase` does nothing. -/
theorem recordPhase_not_recording {s : SysState} (N : ℕ) (t : Int)
    (h : s.is_recording = false) :
    recordPhase N t s = (s, []) := by
  unfold recordPhase
  rw [if_neg (by simp [h])]

/-- Every operation emitted by `startPhase` is a session operation. -/
theorem startPhase_sessionOps {channels : List String} {ok : Bool} {t : Int}
    {s s5 : SysState} {ops5 : List Op}
    (h : startPhase channels ok t s = some (s5, ops5)) :
    ∀ op ∈ ops5, op.isSession = true := by
  rcases startPhase_some h with ⟨_, _, _, _, rfl⟩ | ⟨_, _, _, rfl⟩ | ⟨_, _, rfl⟩ <;>
    intro op hop <;>
    simp only [List.mem_cons, List.not_mem_nil, or_false] at hop
  · rcases hop with rfl | rfl <;> rfl
  · rcases hop with rfl; rfl

/-- Every operation emitted by `stopPhase` is a session operation. -/
theorem stopPhase_sessionOps (s : SysState) :
    ∀ op ∈ (stopPhase s).2, op.isSession = true := by
  unfold stopPhase
  split <;> intro op hop
  · simp only [List.mem_cons, List.not_mem_nil, or_false] at hop
    rcases hop with rfl; rfl
  · cases hop

/-- Every operation emitted by `recordPhase` is a session operation. -/
theorem recordPhase_sessionOps (N : ℕ) (t : Int) (s : SysState) :
    ∀ op ∈ (recordPhase N t s).2, op.isSession = true := by
  unfold recordPhase
  split <;> intro op hop
  · simp only [List.mem_cons, List.not_mem_nil, or_false] at hop
    rcases hop with rfl; rfl
  · cases hop

/-- Inversion of a successful `mux_process` call into its phases. -/
theorem mux_process_char {channels : List String} {inp : TickInput}
    {s s' : SysState} {tr : List Op}
    (h : mux_process channels inp s = some (s', tr)) :
    ∃ rs s5 ops5,
      scanPhase channels.length inp.is_MUX_scanning s =
        some (rs, { s with mux_readings := rs }) ∧
      startPhase channels inp.create_ok inp.epoch_time
        (auxPhase inp.epoch_time inp.fresh_P1
          (chartPhase channels.length inp.epoch_time rs
            { s with mux_readings := rs })) = some (s5, ops5) ∧
      s' = (recordPhase channels.length inp.epoch_time (stopPhase s5).1).1 ∧
      tr = appendOps channels.length ++ ops5 ++ (stopPhase s5).2 ++
        (recordPhase channels.length inp.epoch_time (stopPhase s5).1).2 := by
  unfold mux_process at h
  split at h
  · exact absurd h (by simp)
  · rename_i rs s1 hsc
    obtain rfl := scanPhase_some hsc
    split at h
    · exact absurd h (by simp)
    · rename_i s5 ops5 hst
      simp only [Option.some.injEq, Prod.mk.injEq] at h
      exact ⟨rs, s5, ops5, hsc, hst, h.1.symm, h.2.symm⟩

/-- A successful `scanPhase` returns exactly `scanResult`, and that list is
at least `N` long. -/
theorem scanPhase_some_rs {N : ℕ} {b : Bool} {s : SysState} {rs : List Val}
    {s1 : SysState} (h : scanPhase N b s = some (rs, s1)) :
    rs = scanResult N b s.mux_readings ∧ N ≤ rs.length := by
  cases b with
  | false =>
    unfold scanPhase at h
    simp only [Bool.false_eq_true, if_false, Option.some.injEq,
      Prod.mk.injEq] at h
    rw [← h.1]
    simp [scanResult]
  | true =>
    obtain ⟨hN, hrs, -⟩ := scanPhase_scanning h
    subst hrs
    exact ⟨by simp [scanResult], by rw [normalizeScan_length]; exact hN⟩

/-- Characterisation of the post-state of a successful `mux_process` call:
the shared readings hold the (normalised or placeholder) scan result, each
of the first `N` mux chart buffers and the three auxiliary buffers gained
exactly one sample stamped with the tick's `epoch_time`, `P1_temp` was
refreshed, and `P2_temp`/`ch1_T` were read but not written. -/
theorem mux_process_state_char {channels : List String} {inp : TickInput}
    {s s' : SysState} {tr : List Op}
    (h : mux_process channels inp s = some (s', tr)) :
    s'.mux_readings =
      scanResult channels.length inp.is_MUX_scanning s.mux_readings ∧
    channels.length ≤ s'.mux_readings.length ∧
    (∀ i, s'.CHs_mux i =
      if i < channels.length
      then s.CHs_mux i ++ [(inp.epoch_time,
        (scanResult channels.length inp.is_MUX_scanning
          s.mux_readings).getD i Val.nan)]
      else s.CHs_mux i) ∧
    s'.CH_P1 = s.CH_P1 ++ [(inp.epoch_time, inp.fresh_P1)] ∧
    s'.CH_P2 = s.CH_P2 ++ [(inp.epoch_time, s.P2_temp)] ∧
    s'.CH_PT104 = s.CH_PT104 ++ [(inp.epoch_time, s.ch1_T)] ∧
    s'.P1_temp = inp.fresh_P1 ∧
    s'.P2_temp = s.P2_temp ∧
    s'.ch1_T = s.ch1_T := by
  obtain ⟨rs, s5, ops5, hsc, hst, hs', -⟩ := mux_process_char h
  obtain ⟨hrs, hlen⟩ := scanPhase_some_rs hsc
  subst hrs
  subst hs'
  rcases startPhase_some hst with ⟨-, -, -, rfl, -⟩ | ⟨-, -, rfl, -⟩ | ⟨-, rfl, -⟩ <;>
    simp [auxPhase, chartPhase, hlen]

theorem writeDataRow_not_mem_appendOps (N : ℕ) :
    Op.writeDataRow ∉ appendOps N := by
  simp [appendOps]

/-! ## Claims -/

/-- Claim C6 (temporal): within every single successful execution of
`mux_process`, the operation trace is the fixed list of history-buffer
appends — the `N_channels` mux-chart appends in index order, then the P1,
P2 and PT104 appends — followed only by recording-session operations
(`create_log`, header write, `close_log`, data-row write). Hence every
buffer append completes before any session operation is invoked, and the
buffers-then-session order is identical on every tick. -/
theorem C6_appends_before_session {channels : List String} {inp : TickInput}
    {s s' : SysState} {tr : List Op}
    (h : mux_process channels inp s = some (s', tr)) :
    ∃ sess, tr = appendOps channels.length ++ sess ∧
      (∀ op ∈ appendOps channels.length, op.isAppend = true) ∧
      (∀ op ∈ sess, op.isSession = true) := by
  obtain ⟨rs, s5, ops5, hsc, hst, hs', htr⟩ := mux_process_char h
  refine ⟨ops5 ++ (stopPhase s5).2 ++
    (recordPhase channels.length inp.epoch_time (stopPhase s5).1).2,
    by rw [htr]; simp [List.append_assoc], appendOps_isAppend _, ?_⟩
  intro op hop
  simp only [List.mem_append] at hop
  rcases hop with (hop | hop) | hop
  · exact startPhase_sessionOps hst op hop
  · exact stopPhase_sessionOps s5 op hop
  · exact recordPhase_sessionOps _ _ _ op hop

/-- Witness for C6: a concrete recording tick. -/
theorem C6_witness :
    ∃ s' tr, mux_process wChannels wTick wState = some (s', tr) ∧
      ∃ sess, tr = appendOps wChannels.length ++ sess ∧
        (∀ op ∈ appendOps wChannels.length, op.isAppend = true) ∧
        (∀ op ∈ sess, op.isSession = true) :=
  ⟨_, _, rfl, @C6_appends_before_session wChannels wTick wState _ _ rfl⟩

/-- Claim C3 (invariants): every successful `mux_process` tick appends exactly
one `(timestamp, value)` sample to each of the `N_channels` mux chart
buffers and to the three auxiliary buffers (P1, P2, PT104 ch1); all
auxiliary samples carry the current tick's `epoch_time` (not any
device-side sample time), so all buffers advance in lock-step. -/
theorem C3_lockstep_append {channels : List String} {inp : TickInput}
    {s s' : SysState} {tr : List Op}
    (h : mux_process channels inp s = some (s', tr)) :
    (∀ i < channels.length,
      ∃ v, s'.CHs_mux i = s.CHs_mux i ++ [(inp.epoch_time, v)]) ∧
    s'.CH_P1 = s.CH_P1 ++ [(inp.epoch_time, inp.fresh_P1)] ∧
    s'.CH_P2 = s.CH_P2 ++ [(inp.epoch_time, s.P2_temp)] ∧
    s'.CH_PT104 = s.CH_PT104 ++ [(inp.epoch_time, s.ch1_T)] := by
  obtain ⟨-, -, hCH, h1, h2, h3, -⟩ := mux_process_state_char h
  exact ⟨fun i hi => ⟨_, by rw [hCH i, if_pos hi]⟩, h1, h2, h3⟩

/-- Witness for C3: a concrete scanning tick. -/
theorem C3_witness :
    ∃ s' tr, mux_process wChannels wTick wState = some (s', tr) ∧
      ((∀ i < wChannels.length,
        ∃ v, s'.CHs_mux i = wState.CHs_mux i ++ [(wTick.epoch_time, v)]) ∧
      s'.CH_P1 = wState.CH_P1 ++ [(wTick.epoch_time, wTick.fresh_P1)] ∧
      s'.CH_P2 = wState.CH_P2 ++ [(wTick.epoch_time, wState.P2_temp)] ∧
      s'.CH_PT104 = wState.CH_PT104 ++ [(wTick.epoch_time, wState.ch1_T)]) :=
  ⟨_, _, rfl, @C3_lockstep_append wChannels wTick wState _ _ rfl⟩

/-- Claim C10 (implicit): when the multiplexer is not scanning, `mux_process`
does not pause: it replaces `mux.state.readings` with a fresh list of
`N_channels` NaN values, still appends one NaN sample per mux channel
buffer for the tick, and — if recording — still writes a data row, so
charts and log advance with NaN placeholders rather than skipping. -/
theorem C10_not_scanning_advances {channels : List String} {inp : TickInput}
    {s s' : SysState} {tr : List Op}
    (h : mux_process channels inp s = some (s', tr))
    (hscan : inp.is_MUX_scanning = false) :
    s'.mux_readings = List.replicate channels.length Val.nan ∧
    (∀ i < channels.length,
      s'.CHs_mux i = s.CHs_mux i ++ [(inp.epoch_time, Val.nan)]) ∧
    (s'.is_recording = true → Op.writeDataRow ∈ tr) := by
  obtain ⟨hrd, -, hCH, -⟩ := mux_process_state_char h
  rw [hscan] at hrd hCH
  simp only [scanResult, Bool.false_eq_true, if_false] at hrd hCH
  refine ⟨hrd, fun i hi => ?_, fun hrec => ?_⟩
  · rw [hCH i, if_pos hi, getD_replicate_of_lt hi]
  · obtain ⟨rs, s5, ops5, hsc, hst, hs', htr⟩ := mux_process_char h
    have hrec5 : (stopPhase s5).1.is_recording = true := by
      rw [hs'] at hrec
      simpa using hrec
    rw [htr, recordPhase_recording _ _ hrec5]
    simp

/-- Witness for C10: a concrete non-scanning recording tick. -/
theorem C10_witness :
    ∃ s' tr, mux_process wChannels wTickNoScan wState = some (s', tr) ∧
      (s'.mux_readings = List.replicate wChannels.length Val.nan ∧
      (∀ i < wChannels.length,
        s'.CHs_mux i = wState.CHs_mux i ++ [(wTickNoScan.epoch_time, Val.nan)]) ∧
      (s'.is_recording = true → Op.writeDataRow ∈ tr)) :=
  ⟨_, _, rfl, @C10_not_scanning_advances wChannels wTickNoScan wState _ _ rfl rfl⟩

/-- Claim C9 (implicit, frame effect): sentinel normalisation mutates the
shared device state in place — `readings = mux.state.readings` aliases the
stored list, so line 497 overwrites `mux.state.readings[i]` itself. After a
scanning tick the shared readings equal the normalised list, every
over-threshold entry reads back as NaN, and the data row written while
recording is built from the post-state `mux.state.readings`: later
consumers observe the normalised NaN, never the raw sentinel. -/
theorem C9_in_place_normalization {channels : List String} {inp : TickInput}
    {s s' : SysState} {tr : List Op}
    (h : mux_process channels inp s = some (s', tr))
    (hscan : inp.is_MUX_scanning = true) :
    s'.mux_readings = normalizeScan channels.length s.mux_readings ∧
    (∀ i < channels.length,
      (s.mux_readings.getD i Val.nan).gtThreshold = true →
        s'.mux_readings.getD i Val.nan = Val.nan) ∧
    (s'.is_recording = true →
      ∃ pre, s'.log_file = pre ++
        dataRowChunks channels.length
          (Rat.divInt (inp.epoch_time - s'.start_time) 1000)
          s'.P1_temp s'.P2_temp s'.ch1_T s'.mux_readings) := by
  obtain ⟨hrd, hlen, -⟩ := mux_process_state_char h
  rw [hscan] at hrd
  simp only [scanResult, if_true] at hrd
  have hlen' : channels.length ≤ s.mux_readings.length := by
    rw [hrd, normalizeScan_length] at hlen
    exact hlen
  refine ⟨hrd, fun i hi hgt => ?_, fun hrec => ?_⟩
  · rw [hrd, normalizeScan_getD_lt _ _ hi hlen', normalizeVal, hgt]
    simp
  · obtain ⟨rs, s5, ops5, hsc, hst, hs', htr⟩ := mux_process_char h
    have hrec5 : (stopPhase s5).1.is_recording = true := by
      rw [hs'] at hrec
      simpa using hrec
    refine ⟨(stopPhase s5).1.log_file, ?_⟩
    rw [hs', recordPhase_recording _ _ hrec5]

/-- Witness for C9: a concrete scanning, recording tick whose second
reading exceeds the threshold. -/
theorem C9_witness :
    ∃ s' tr, mux_process wChannels wTick wState = some (s', tr) ∧
      (s'.mux_readings = normalizeScan wChannels.length wState.mux_readings ∧
      (∀ i < wChannels.length,
        (wState.mux_readings.getD i Val.nan).gtThreshold = true →
          s'.mux_readings.getD i Val.nan = Val.nan) ∧
      (s'.is_recording = true →
        ∃ pre, s'.log_file = pre ++
          dataRowChunks wChannels.length
            (Rat.divInt (wTick.epoch_time - s'.start_time) 1000)
            s'.P1_temp s'.P2_temp s'.ch1_T s'.mux_readings)) :=
  ⟨_, _, rfl, @C9_in_place_normalization wChannels wTick wState _ _ rfl rfl⟩

/-- Claim C2 (amended): during a scanning tick, each channel entry *strictly
greater than* `9.8e37` is replaced by NaN before it is appended to the
channel's history buffer or stored; entries not exceeding the threshold —
including any *negative* value, however large in magnitude (the code's test
`readings[i] > 9.8e37` is signed, not a magnitude test) — are stored and
appended unchanged. -/
theorem C2_overflow_normalization {channels : List String} {inp : TickInput}
    {s s' : SysState} {tr : List Op}
    (h : mux_process channels inp s = some (s', tr))
    (hscan : inp.is_MUX_scanning = true) :
    ∀ i < channels.length,
      s'.mux_readings.getD i Val.nan =
        normalizeVal (s.mux_readings.getD i Val.nan) ∧
      s'.CHs_mux i = s.CHs_mux i ++
        [(inp.epoch_time, normalizeVal (s.mux_readings.getD i Val.nan))] ∧
      ((s.mux_readings.getD i Val.nan).gtThreshold = true →
        normalizeVal (s.mux_readings.getD i Val.nan) = Val.nan) := by
  obtain ⟨hrd, hlen, hCH, -⟩ := mux_process_state_char h
  rw [hscan] at hrd hCH
  simp only [scanResult, if_true] at hrd hCH
  have hlen' : channels.length ≤ s.mux_readings.length := by
    rw [hrd, normalizeScan_length] at hlen
    exact hlen
  intro i hi
  refine ⟨?_, ?_, fun hgt => by rw [normalizeVal, hgt]; simp⟩
  · rw [hrd, normalizeScan_getD_lt _ _ hi hlen']
  · rw [hCH i, if_pos hi, normalizeScan_getD_lt _ _ hi hlen']

/-- Witness for C2 (amended): the concrete scanning tick of `wState`. -/
theorem C2_witness :
    ∃ s' tr, mux_process wChannels wTick wState = some (s', tr) ∧
      ∀ i < wChannels.length,
        s'.mux_readings.getD i Val.nan =
          normalizeVal (wState.mux_readings.getD i Val.nan) ∧
        s'.CHs_mux i = wState.CHs_mux i ++
          [(wTick.epoch_time,
            normalizeVal (wState.mux_readings.getD i Val.nan))] ∧
        ((wState.mux_readings.getD i Val.nan).gtThreshold = true →
          normalizeVal (wState.mux_readings.getD i Val.nan) = Val.nan) :=
  ⟨_, _, rfl, @C2_overflow_normalization wChannels wTick wState _ _ rfl rfl⟩

/-- Counterexample for C2 as stated: the claim as stated (any value whose *magnitude*
exceeds `9.8e37` is replaced by NaN) is false: on a scanning tick whose
single reading is `-1e38` — magnitude above the threshold — the stored
reading, the appended chart sample and the logged cell all keep the raw
value `-1e38`; nothing is replaced by NaN. -/
theorem C2_counterexample :
    (mux_process wChannelsOne wTick wStateNeg).map
        (fun p => p.1.mux_readings) =
      some [Val.num (-100000000000000000000000000000000000000)] ∧
    (mux_process wChannelsOne wTick wStateNeg).map (fun p => p.1.CHs_mux 0) =
      some [((2000 : Int),
        Val.num (-100000000000000000000000000000000000000))] ∧
    (mux_process wChannelsOne wTick wStateNeg).map
        (fun p => p.1.log_file.getD 8 (Chunk.lit "")) =
      some (Chunk.e 5 (Val.num (-100000000000000000000000000000000000000))) ∧
    (-100000000000000000000000000000000000000 : ℚ) < -overflowThreshold ∧
    Val.num (-100000000000000000000000000000000000000) ≠ Val.nan := by
  decide

/-- Claim C1 (amended): for every tick processed while the log is recording
(and not stopping), `mux_process` appends exactly one data row, whose
structure `dataRowChunks` fixes: elapsed time in `"%.3f"` (three decimal
places), the two bath temperatures in `"%.2f"`, the PT104 value in
`"%.3f"`, and one `"%.5e"` exponential value per mux channel, fields
tab-separated and the row terminated by exactly one newline; exactly one
`writeDataRow` operation appears in the trace. -/
theorem C1_data_row_format {channels : List String} {inp : TickInput}
    {s s' : SysState} {tr : List Op}
    (h : mux_process channels inp s = some (s', tr))
    (hrec : s'.is_recording = true) :
    ∃ pre, s'.log_file = pre ++
        dataRowChunks channels.length
          (Rat.divInt (inp.epoch_time - s'.start_time) 1000)
          inp.fresh_P1 s.P2_temp s.ch1_T s'.mux_readings ∧
      tr.count Op.writeDataRow = 1 := by
  obtain ⟨rs, s5, ops5, hsc, hst, hs', htr⟩ := mux_process_char h
  by_cases hsp : s5.stopping = true
  · exfalso
    rw [hs'] at hrec
    rw [stopPhase_of_stopping hsp] at hrec
    simp at hrec
  · rw [stopPhase_of_not_stopping (by simpa using hsp)] at hs' htr
    simp only at hs' htr
    have hrec5 : s5.is_recording = true := by
      rw [hs'] at hrec
      simpa using hrec
    have h0 : (appendOps channels.length).count Op.writeDataRow = 0 :=
      List.count_eq_zero.mpr (writeDataRow_not_mem_appendOps _)
    refine ⟨s5.log_file, ?_, ?_⟩
    · rw [hs', recordPhase_recording _ _ hrec5]
      rcases startPhase_some hst with ⟨-, -, -, rfl, -⟩ | ⟨-, -, rfl, -⟩ |
        ⟨-, rfl, -⟩ <;> simp [auxPhase, chartPhase]
    · rw [htr, recordPhase_recording _ _ hrec5]
      rcases startPhase_some hst with ⟨-, -, -, -, rfl⟩ | ⟨-, -, -, rfl⟩ |
        ⟨-, -, rfl⟩ <;> simp [h0, List.count_cons, List.count_append]

/-- Witness for C1 (amended): the concrete recording tick of `wState`. -/
theorem C1_witness :
    ∃ s' tr, mux_process wChannels wTick wState = some (s', tr) ∧
      s'.is_recording = true ∧
      ∃ pre, s'.log_file = pre ++
          dataRowChunks wChannels.length
            (Rat.divInt (wTick.epoch_time - s'.start_time) 1000)
            wTick.fresh_P1 wState.P2_temp wState.ch1_T s'.mux_readings ∧
        tr.count Op.writeDataRow = 1 :=
  ⟨_, _, rfl, by decide,
    @C1_data_row_format wChannels wTick wState _ _ rfl (by decide)⟩

/-- Counterexample for C1 as stated: the claim as stated says the elapsed time is
written with one decimal place; on a concrete recording tick the
elapsed-time field of the data row is the chunk `Chunk.f 3 _` — the
`"%.3f"` format of line 550 — which is not the one-decimal format
`Chunk.f 1 _`. -/
theorem C1_counterexample :
    (mux_process wChannels wTick wState).map
        (fun p => p.1.log_file.getD 0 (Chunk.lit "")) =
      some (Chunk.f 3 (Val.num 1)) ∧
    Chunk.f 3 (Val.num 1) ≠ Chunk.f 1 (Val.num 1) := by
  decide

theorem writeHeader_not_mem_appendOps (N : ℕ) :
    Op.writeHeader ∉ appendOps N := by
  simp [appendOps]

theorem stopPhase_count_writeHeader (s : SysState) :
    (stopPhase s).2.count Op.writeHeader = 0 := by
  unfold stopPhase
  split <;> rfl

theorem recordPhase_count_writeHeader (N : ℕ) (t : Int) (s : SysState) :
    (recordPhase N t s).2.count Op.writeHeader = 0 := by
  unfold recordPhase
  split <;> rfl

theorem countP_isExp_cells (rs : List Val) (N : ℕ) :
    ((List.range N).flatMap
      (fun j => cellChunks (rs.getD j Val.nan))).countP Chunk.isExp = N := by
  induction N with
  | zero => rfl
  | succ N ih =>
    rw [List.range_succ, List.flatMap_append, List.countP_append, ih]
    rfl

/-- Claim C4: on the tick where recording starts (`file_logger.starting` true
and `create_log` succeeding), exactly one header row is written, with the
column order fixed by `headerChunks`: the elapsed-time column first, then
the P1-temperature, P2-temperature and PT104-channel-1 columns, then one
column per entry of `mux.state.all_scan_list_channels` in list order. No
data row precedes the header: the fresh file's content is the header
followed by at most the current tick's data row (which starts at elapsed
time 0). -/
theorem C4_header_on_start {channels : List String} {inp : TickInput}
    {s s' : SysState} {tr : List Op}
    (h : mux_process channels inp s = some (s', tr))
    (hstart : s.starting = true) (hok : inp.create_ok = true) :
    channels ≠ [] ∧
    tr.count Op.writeHeader = 1 ∧
    ∃ rest, s'.log_file = headerChunks channels ++ rest ∧
      (rest = [] ∨
       rest = dataRowChunks channels.length 0 inp.fresh_P1 s.P2_temp s.ch1_T
         s'.mux_readings) := by
  obtain ⟨rs, s5, ops5, hsc, hst, hs', htr⟩ := mux_process_char h
  rcases startPhase_some hst with ⟨-, -, hne, rfl, rfl⟩ | ⟨-, hokf, -, -⟩ |
    ⟨hstf, -, -⟩
  · refine ⟨hne, ?_, ?_⟩
    · rw [htr]
      simp [List.count_append,
        List.count_eq_zero.mpr (writeHeader_not_mem_appendOps channels.length),
        stopPhase_count_writeHeader, recordPhase_count_writeHeader]
    · by_cases hsp : s.stopping = true
      · refine ⟨[], ?_, Or.inl rfl⟩
        rw [hs']
        simp [stopPhase, recordPhase, hsp, auxPhase, chartPhase]
      · refine ⟨dataRowChunks channels.length 0 inp.fresh_P1 s.P2_temp s.ch1_T
          s'.mux_readings, ?_, Or.inr rfl⟩
        have hz : Rat.divInt (inp.epoch_time - inp.epoch_time) 1000 = 0 := by
          norm_num [Rat.divInt_eq_div]
        rw [hs']
        simp [stopPhase, recordPhase, hsp, auxPhase, chartPhase, sub_self, hz]
  · rw [hok] at hokf
    simp at hokf
  · simp only [auxPhase, chartPhase] at hstf
    rw [hstart] at hstf
    simp at hstf

/-- Witness for C4: a concrete tick with the start button pressed and a
successful `create_log`. -/
theorem C4_witness :
    ∃ s' tr, mux_process wChannels wTickStart wStateStart = some (s', tr) ∧
      (wChannels ≠ [] ∧
      tr.count Op.writeHeader = 1 ∧
      ∃ rest, s'.log_file = headerChunks wChannels ++ rest ∧
        (rest = [] ∨
         rest = dataRowChunks wChannels.length 0 wTickStart.fresh_P1
           wStateStart.P2_temp wStateStart.ch1_T s'.mux_readings)) :=
  ⟨_, _, rfl,
    @C4_header_on_start wChannels wTickStart wStateStart _ _ rfl rfl rfl⟩

/-- Claim C5 (error handling): the logging block of lines 546-559
(`recordPhase`) writes, on every recording tick, a data row whose channel
segment substitutes NaN — in the same `"%.5e"` cell format `cellChunks` —
for every channel index at or beyond the length of `mux.state.readings`
(the code's guard `len(mux.state.readings) <= i`), and the row always has
exactly `N_channels` channel fields. -/
theorem C5_missing_cells_nan (N : ℕ) (t : Int) (s : SysState)
    (hrec : s.is_recording = true) :
    (recordPhase N t s).1.log_file = s.log_file ++
      dataRowChunks N (Rat.divInt (t - s.start_time) 1000)
        s.P1_temp s.P2_temp s.ch1_T s.mux_readings ∧
    (List.range N).flatMap
        (fun j => cellChunks (s.mux_readings.getD j Val.nan)) =
      (List.range N).flatMap (fun j => cellChunks
        (if s.mux_readings.length ≤ j then Val.nan
         else s.mux_readings.getD j Val.nan)) ∧
    (dataRowChunks N (Rat.divInt (t - s.start_time) 1000)
        s.P1_temp s.P2_temp s.ch1_T s.mux_readings).countP Chunk.isExp = N := by
  refine ⟨by rw [recordPhase_recording _ _ hrec], ?_, ?_⟩
  · have hfun : (fun j => cellChunks (s.mux_readings.getD j Val.nan)) =
        (fun j => cellChunks (if s.mux_readings.length ≤ j then Val.nan
          else s.mux_readings.getD j Val.nan)) := by
      funext j
      split
      · rw [List.getD_eq_default _ _ (by assumption)]
      · rfl
    rw [hfun]
  · simp only [dataRowChunks, List.countP_append, List.countP_cons,
      countP_isExp_cells, Chunk.isExp]
    simp

/-- Witness for C5: a concrete recording state whose readings list (one
entry) is shorter than the channel count (two). -/
theorem C5_witness :
    (recordPhase 2 2000 wStateShort).1.log_file = wStateShort.log_file ++
      dataRowChunks 2 (Rat.divInt (2000 - wStateShort.start_time) 1000)
        wStateShort.P1_temp wStateShort.P2_temp wStateShort.ch1_T
        wStateShort.mux_readings ∧
    (List.range 2).flatMap
        (fun j => cellChunks (wStateShort.mux_readings.getD j Val.nan)) =
      (List.range 2).flatMap (fun j => cellChunks
        (if wStateShort.mux_readings.length ≤ j then Val.nan
         else wStateShort.mux_readings.getD j Val.nan)) ∧
    (dataRowChunks 2 (Rat.divInt (2000 - wStateShort.start_time) 1000)
        wStateShort.P1_temp wStateShort.P2_temp wStateShort.ch1_T
        wStateShort.mux_readings).countP Chunk.isExp = 2 :=
  C5_missing_cells_nan 2 2000 wStateShort rfl

theorem countTicks_sample (t : Int) (v : Val) (es : List AuxEv) :
    countTicks (AuxEv.sample t v :: es) = countTicks es := by
  simp [countTicks, List.countP_cons]

theorem countTicks_tick (t : Int) (es : List AuxEv) :
    countTicks (AuxEv.tick t :: es) = countTicks es + 1 := by
  simp [countTicks, List.countP_cons]

/-- The row emitted at a tick is `(tick time, value held after the events
preceding it)` — auxiliary samples arriving after the tick play no part. -/
theorem runMerge_get_tick (held : Val) (pre post : List AuxEv) (ts : Int) :
    (runMerge held (pre ++ AuxEv.tick ts :: post)).get? (countTicks pre) =
      some (ts, heldAfter held pre) := by
  induction pre generalizing held with
  | nil => simp [runMerge, countTicks, heldAfter]
  | cons e pre ih =>
    cases e with
    | sample t0 v =>
      rw [List.cons_append]
      show (runMerge v (pre ++ AuxEv.tick ts :: post)).get?
        (countTicks (AuxEv.sample t0 v :: pre)) = _
      rw [countTicks_sample]
      exact ih v
    | tick t0 =>
      rw [List.cons_append]
      show ((t0, held) :: runMerge held (pre ++ AuxEv.tick ts :: post)).get?
        (countTicks (AuxEv.tick t0 :: pre)) = _
      rw [countTicks_tick]
      exact ih held

/-- Claim C8: in a time-ordered interleaving of auxiliary-state updates and
primary ticks, the merged row produced at a tick carries exactly the
auxiliary value held in shared state after the events preceding the tick
(`heldAfter` — the most recent sample, or the previous value reused when no
fresh sample arrived), and every event preceding the tick has a timestamp
at or before the row's timestamp — never a later one. This models
`mux_process` reading `bath.state.P2_temp` / `pt104.state.ch1_T`
(lines 511-512) while the auxiliary workers store into those fields. -/
theorem C8_sample_and_hold (held : Val) (pre post : List AuxEv) (ts : Int)
    (hsorted : List.Sorted (· ≤ ·)
      ((pre ++ AuxEv.tick ts :: post).map AuxEv.time)) :
    (runMerge held (pre ++ AuxEv.tick ts :: post)).get? (countTicks pre) =
      some (ts, heldAfter held pre) ∧
    ∀ e ∈ pre, e.time ≤ ts := by
  refine ⟨runMerge_get_tick held pre post ts, fun e he => ?_⟩
  rw [List.map_append, List.map_cons] at hsorted
  have hcross := (List.pairwise_append.mp hsorted).2.2
  exact hcross e.time (List.mem_map_of_mem AuxEv.time he) ts
    (List.mem_cons_self _ _)

/-- The concrete interleaving used by the C8 witness: two auxiliary samples
and one earlier tick before the observed tick at time 4, one later sample
after it. -/
def wPre : List AuxEv :=
  [AuxEv.sample 1 (Val.num 5), AuxEv.tick 2, AuxEv.sample 3 (Val.num 7)]

/-- Events after the observed tick in the C8 witness. -/
def wPost : List AuxEv := [AuxEv.sample 9 (Val.num 8)]

/-- Witness for C8: the concrete sorted interleaving `wPre ++ tick 4 ::
wPost`; the row at the observed tick holds the value sampled at time 3. -/
theorem C8_witness :
    List.Sorted (· ≤ ·) ((wPre ++ AuxEv.tick 4 :: wPost).map AuxEv.time) ∧
    ((runMerge Val.nan (wPre ++ AuxEv.tick 4 :: wPost)).get? (countTicks wPre) =
      some ((4 : Int), heldAfter Val.nan wPre) ∧
    ∀ e ∈ wPre, e.time ≤ (4 : Int)) :=
  ⟨by decide, C8_sample_and_hold Val.nan wPre wPost 4 (by decide)⟩

theorem getD_map_lt {α β : Type} (f : α → β) (d : β) (d0 : α) :
    ∀ (l : List α) (k : ℕ), k < l.length →
      (l.map f).getD k d = f (l.getD k d0)
  | a :: l, 0, _ => by simp
  | a :: l, k + 1, hk => by
    simp only [List.map_cons, List.getD_cons_succ]
    exact getD_map_lt f d d0 l k (by simpa using hk)

/-- On a quiet tick (not starting, not stopping, recording), `mux_process`
appends exactly one data row built from the tick's inputs and the
post-normalisation readings, and preserves the logger flags and the start
time. -/
theorem mux_process_log_quiet {channels : List String} {inp : TickInput}
    {s s' : SysState} {tr : List Op}
    (h : mux_process channels inp s = some (s', tr))
    (hst : s.starting = false) (hsp : s.stopping = false)
    (hrec : s.is_recording = true) :
    s'.log_file = s.log_file ++
      dataRowChunks channels.length
        (Rat.divInt (inp.epoch_time - s.start_time) 1000)
        inp.fresh_P1 s.P2_temp s.ch1_T s'.mux_readings ∧
    s'.starting = false ∧ s'.stopping = false ∧ s'.is_recording = true ∧
    s'.start_time = s.start_time := by
  obtain ⟨rs, s5, ops5, hsc, hstp, hs', htr⟩ := mux_process_char h
  set A := auxPhase inp.epoch_time inp.fresh_P1
    (chartPhase channels.length inp.epoch_time rs
      { s with mux_readings := rs }) with hA
  rcases startPhase_some hstp with ⟨hAs, -⟩ | ⟨hAs, -⟩ | ⟨-, rfl, -⟩
  · exfalso
    rw [hA] at hAs
    simp [auxPhase, chartPhase, hst] at hAs
  · exfalso
    rw [hA] at hAs
    simp [auxPhase, chartPhase, hst] at hAs
  · have h5 : A.stopping = false := by
      rw [hA]
      simpa [auxPhase, chartPhase] using hsp
    rw [stopPhase_of_not_stopping h5] at hs'
    have hrect : (((A : SysState), ([] : List Op)).1).is_recording = true := by
      rw [hA]
      simpa [auxPhase, chartPhase] using hrec
    rw [recordPhase_recording _ _ hrect] at hs'
    subst hs'
    refine ⟨?_, ?_, ?_, ?_, ?_⟩ <;>
      · rw [hA]
        simp [auxPhase, chartPhase, hst, hsp, hrec]

/-- Characterisation of a quiet recording run driven by `runDAQ`: every
tick scanning, no start/stop events. Each mux chart buffer gains one
normalised sample per tick, the log gains one data row per tick, every
tick's scan is long enough, and the logger flags, start time and the
never-rewritten auxiliary fields stay fixed. -/
theorem runDAQ_char (channels : List String)
    (ticks : List (TickInput × List Val)) (s s' : SysState)
    (hrun : runDAQ channels ticks s = some s')
    (hscanning : ∀ p ∈ ticks, p.1.is_MUX_scanning = true)
    (hst : s.starting = false) (hsp : s.stopping = false)
    (hrec : s.is_recording = true) :
    (∀ j, s'.CHs_mux j = s.CHs_mux j ++
      (if j < channels.length
       then ticks.map (fun p => ((p.1.epoch_time : Int),
         (normalizeScan channels.length p.2).getD j Val.nan))
       else [])) ∧
    s'.log_file = s.log_file ++ ticks.flatMap (fun p =>
      dataRowChunks channels.length
        (Rat.divInt (p.1.epoch_time - s.start_time) 1000)
        p.1.fresh_P1 s.P2_temp s.ch1_T (normalizeScan channels.length p.2)) ∧
    (∀ p ∈ ticks, channels.length ≤ p.2.length) ∧
    s'.P2_temp = s.P2_temp ∧ s'.ch1_T = s.ch1_T ∧
    s'.start_time = s.start_time ∧ s'.starting = false ∧
    s'.stopping = false ∧ s'.is_recording = true := by
  induction ticks generalizing s with
  | nil =>
    simp only [runDAQ] at hrun
    cases hrun
    simp [hst, hsp, hrec]
  | cons p rest ih =>
    simp only [runDAQ] at hrun
    split at hrun
    · exact absurd hrun (by simp)
    · rename_i s1 tr1 hd
      rw [daqTick] at hd
      have hscan1 : p.1.is_MUX_scanning = true :=
        hscanning p (List.mem_cons_self _ _)
      obtain ⟨hrd, hlen1, hCH1, -, -, -, -, hP2, hch⟩ :=
        mux_process_state_char hd
      obtain ⟨hlog1, hst1, hsp1, hrec1, hstart1⟩ :=
        mux_process_log_quiet hd hst hsp hrec
      rw [hscan1] at hrd hCH1
      simp only [scanResult, if_true] at hrd hCH1
      have hlenp : channels.length ≤ p.2.length := by
        have := hlen1
        rw [hrd, normalizeScan_length] at this
        simpa using this
      obtain ⟨ihCH, ihlog, ihlen, ihP2, ihch, ihstart, iha, ihb, ihc⟩ :=
        ih s1 hrun (fun q hq => hscanning q (List.mem_cons_of_mem p hq))
          hst1 hsp1 hrec1
      refine ⟨?_, ?_, ?_, by rw [ihP2, hP2], by rw [ihch, hch],
        by rw [ihstart, hstart1], iha, ihb, ihc⟩
      · intro j
        rw [ihCH j, hCH1 j]
        by_cases hj : j < channels.length
        · simp only [hj, if_true, List.map_cons, List.append_assoc,
            List.singleton_append]
        · simp [hj]
      · rw [ihlog, hlog1, hrd, hP2, hch, hstart1, List.flatMap_cons,
          List.append_assoc]
      · intro q hq
        rcases List.mem_cons.mp hq with rfl | hq2
        · exact hlenp
        · exact ihlen q hq2

theorem getD_mem {α : Type} (l : List α) (d : α) :
    ∀ (k : ℕ), k < l.length → l.getD k d ∈ l := by
  induction l with
  | nil => intro k hk; simp at hk
  | cons a l ih =>
    intro k hk
    cases k with
    | zero => simp
    | succ k =>
      simp only [List.getD_cons_succ]
      exact List.mem_cons_of_mem a (ih k (by simpa using hk))

theorem getD_append_len_add {α : Type} (l1 l2 : List α) (d : α) (k : ℕ) :
    (l1 ++ l2).getD (l1.length + k) d = l2.getD k d := by
  induction l1 with
  | nil => simp
  | cons a l ih => simpa [List.cons_append, Nat.succ_add] using ih

/-- Default entry used for positional indexing into a tick list. -/
def tick0 : TickInput × List Val :=
  ({ epoch_time := 0, is_MUX_scanning := false, fresh_P1 := Val.nan,
     create_ok := false }, [])

/-- Claim C7 (frame effect): sentinel normalisation is cell-local. In a quiet
recording run of 10 scanning ticks over 3 channels in which exactly tick
5's channel 2 (zero-based indices k = 4, j = 1) reports an over-threshold
sentinel, the charted/stored sample and the logged cell of that one cell
are NaN, while every one of the other 29 cells keeps exactly the numeric
value the device reported. -/
theorem C7_cell_local_normalization (channels : List String)
    (ticks : List (TickInput × List Val)) (s s' : SysState)
    (hrun : runDAQ channels ticks s = some s')
    (hN : channels.length = 3) (hT : ticks.length = 10)
    (hscanning : ∀ p ∈ ticks, p.1.is_MUX_scanning = true)
    (hsent : ∀ k < 10, ∀ j < 3,
      (((ticks.getD k tick0).2.getD j Val.nan).gtThreshold = true ↔
        (k = 4 ∧ j = 1)))
    (hst : s.starting = false) (hsp : s.stopping = false)
    (hrec : s.is_recording = true) :
    (∀ j < 3, ∀ k < 10,
      (s'.CHs_mux j).getD ((s.CHs_mux j).length + k) ((0 : Int), Val.nan) =
        (((ticks.getD k tick0).1.epoch_time : Int),
         if k = 4 ∧ j = 1 then Val.nan
         else (ticks.getD k tick0).2.getD j Val.nan)) ∧
    s'.log_file = s.log_file ++ ticks.flatMap (fun p =>
      dataRowChunks channels.length
        (Rat.divInt (p.1.epoch_time - s.start_time) 1000)
        p.1.fresh_P1 s.P2_temp s.ch1_T (normalizeScan channels.length p.2)) ∧
    (∀ k < 10, ∀ j < 3,
      (normalizeScan channels.length (ticks.getD k tick0).2).getD j Val.nan =
        if k = 4 ∧ j = 1 then Val.nan
        else (ticks.getD k tick0).2.getD j Val.nan) := by
  obtain ⟨hCH, hlog, hlen, -⟩ :=
    runDAQ_char channels ticks s s' hrun hscanning hst hsp hrec
  have hcell : ∀ k < 10, ∀ j < 3,
      (normalizeScan channels.length (ticks.getD k tick0).2).getD j Val.nan =
        if k = 4 ∧ j = 1 then Val.nan
        else (ticks.getD k tick0).2.getD j Val.nan := by
    intro k hk j hj
    have hk' : k < ticks.length := by omega
    have hlenk := hlen _ (getD_mem ticks tick0 k hk')
    rw [normalizeScan_getD_lt _ _ (by omega) hlenk]
    by_cases hc : k = 4 ∧ j = 1
    · rw [if_pos hc, normalizeVal, (hsent k hk j hj).mpr hc]
      simp
    · rw [if_neg hc, normalizeVal]
      cases hgt : ((ticks.getD k tick0).2.getD j Val.nan).gtThreshold with
      | true => exact absurd ((hsent k hk j hj).mp hgt) hc
      | false => simp
  refine ⟨?_, hlog, hcell⟩
  intro j hj k hk
  rw [hCH j, if_pos (by omega : j < channels.length), getD_append_len_add,
    getD_map_lt _ _ tick0 ticks k (by omega), hcell k hk j hj]

/-- The three-channel scan list of the C7 witness. -/
def c7channels : List String := ["101", "102", "103"]

/-- An ordinary three-value scan. -/
def c7scanA : List Val := [Val.num 1, Val.num 2, Val.num 3]

/-- A scan whose middle value is an over-threshold sentinel (`1e38`). -/
def c7scanS : List Val :=
  [Val.num 1, Val.num 100000000000000000000000000000000000000, Val.num 3]

/-- Ten scanning ticks at 1000 ms intervals; only tick 5 (index 4) carries
the sentinel scan. -/
def c7ticks : List (TickInput × List Val) :=
  (List.range 10).map (fun k =>
    ({ epoch_time := 1000 * ((k : Int) + 1), is_MUX_scanning := true,
       fresh_P1 := Val.num 20, create_ok := false },
     if k = 4 then c7scanS else c7scanA))

/-- Witness for C7: the concrete 10-tick, 3-channel run. -/
theorem C7_witness :
    ∃ s', runDAQ c7channels c7ticks wState = some s' ∧
      ((∀ j < 3, ∀ k < 10,
        (s'.CHs_mux j).getD ((wState.CHs_mux j).length + k)
            ((0 : Int), Val.nan) =
          (((c7ticks.getD k tick0).1.epoch_time : Int),
           if k = 4 ∧ j = 1 then Val.nan
           else (c7ticks.getD k tick0).2.getD j Val.nan)) ∧
      s'.log_file = wState.log_file ++ c7ticks.flatMap (fun p =>
        dataRowChunks c7channels.length
          (Rat.divInt (p.1.epoch_time - wState.start_time) 1000)
          p.1.fresh_P1 wState.P2_temp wState.ch1_T
          (normalizeScan c7channels.length p.2)) ∧
      (∀ k < 10, ∀ j < 3,
        (normalizeScan c7channels.length
            (c7ticks.getD k tick0).2).getD j Val.nan =
          if k = 4 ∧ j = 1 then Val.nan
          else (c7ticks.getD k tick0).2.getD j Val.nan)) :=
  ⟨_, rfl, C7_cell_local_normalization c7channels c7ticks wState _ rfl rfl
    rfl (by decide) (by decide) rfl rfl rfl⟩

end ThermistorCalib
